import Mathlib

/-!
Verification of the query-mutation layer, the opportunistic plan compiler and
the commit/commit-diff match model of the sourcegraph search core, shallowly
embedded from the Go sources (internal/search/job/jobutil/opportunistic.go and
the result package files).  Functions of the repository that are not part of
the provided sources (the query library helpers, the job combinator
constructors and the URL-rewrite rule) are modelled from the specification and
carry a doc comment saying so.
-/

namespace strings

/-- Splits the characters on a separator, Go strings.Split with a single
character separator (structural so that concrete runs reduce in the kernel). -/
def splitAux (sep : Char) : List Char → List Char → List String
  | [], seg => [String.mk seg.reverse]
  | c :: rest, seg =>
    if c = sep then String.mk seg.reverse :: splitAux sep rest []
    else splitAux sep rest (c :: seg)

/-- Go strings.Split for a single-character separator: the separated
fragments, empty fragments included, and the whole string when the separator
does not occur. -/
def Split (s : String) (sep : Char) : List String :=
  splitAux sep s.toList []

/-- Drops leading whitespace characters. -/
def dropSpace : List Char → List Char
  | [] => []
  | c :: rest => if c.isWhitespace then dropSpace rest else c :: rest

/-- Go strings.TrimSpace: removes leading and trailing whitespace. -/
def TrimSpace (s : String) : String :=
  String.mk ((dropSpace ((dropSpace s.toList).reverse)).reverse)

end strings

namespace query

/-- Modelled from the spec: a source range attached to a node by the parser
(the query library is not among the provided sources; only its zero value and
identity are relevant here). -/
structure Range where
  start : Nat
  stop : Nat
deriving DecidableEq, Repr, Inhabited

/-- Modelled from the spec: the annotation the query library attaches to each
node, a label bit set plus a source range. -/
structure Annotation where
  labels : Nat
  range : Range
deriving DecidableEq, Repr, Inhabited

/-- The zero value of Annotation, written query.Annotation{} in Go. -/
def annEmpty : Annotation := ⟨0, ⟨0, 0⟩⟩

/-- The zero value of Range, written query.Range{} in Go. -/
def rangeEmpty : Range := ⟨0, 0⟩

/-- Modelled from the spec: the label the query library gives literal
patterns; only its identity matters for this development. -/
def Literal : Nat := 1

/-- Operator kinds of the pattern tree: And, Or, Concat. -/
inductive OpKind where
  | and
  | or
  | concat
deriving DecidableEq, Repr, Inhabited

/-- The query node tree: a pattern leaf, a parameter, or an operator over
operand nodes, mirroring query.Pattern, query.Parameter and query.Operator. -/
inductive Node where
  | pattern (value : String) (negated : Bool) ( annotation : Annotation)
  | parameter (field : String) (value : String) (negated : Bool) ( annotation : Annotation)
  | operator (kind : OpKind) (operands : List Node) ( annotation : Annotation)
deriving Repr, Inhabited

/-- query.Parameter as a standalone record (field, value, negation, annotation). -/
structure Parameter where
  field : String
  value : String
  negated : Bool
  annotation : Annotation
deriving DecidableEq, Repr, Inhabited

/-- query.Basic: one clause of a plan, a parameter list plus one pattern
expression. -/
structure Basic where
  Parameters : List Parameter
  Pattern : Node
deriving Repr, Inhabited

/-- Go constant query.FieldSelect. -/
def FieldSelect : String := "select"

/-- Modelled from the spec: query.NewPattern builds a non-negated pattern
node carrying the given labels and range in its annotation. -/
def NewPattern (value : String) (labels : Nat) (range : Range) : Node :=
  Node.pattern value false ⟨labels, range⟩

/-- The data VisitPattern hands to its callback for one pattern leaf. -/
structure PatternData where
  value : String
  negated : Bool
  annotation : Annotation
deriving DecidableEq, Repr, Inhabited

mutual

/-- Modelled from the spec: the pattern leaves of one node in visit order
(parameters are skipped, operators are traversed). -/
def visitPatternNode : Node → List PatternData
  | Node.pattern v n a => [⟨v, n, a⟩]
  | Node.parameter _ _ _ _ => []
  | Node.operator _ operands _ => visitPatternList operands

/-- Modelled from the spec: the pattern leaves of a node list in visit order. -/
def visitPatternList : List Node → List PatternData
  | [] => []
  | n :: ns => visitPatternNode n ++ visitPatternList ns

end

/-- Modelled from the spec: query.VisitPattern enumerates every pattern leaf
of the given nodes in visit order (rendered as a list instead of a callback). -/
def VisitPattern (nodes : List Node) : List PatternData :=
  visitPatternList nodes

mutual

/-- Modelled from the spec: the human-readable rendering of one node used by
query.StringHuman (patterns print their value, parameters print field:value). -/
def nodeStringHuman : Node → String
  | Node.pattern v true _ => "NOT " ++ v
  | Node.pattern v false _ => v
  | Node.parameter f v true _ => "-" ++ f ++ ":" ++ v
  | Node.parameter f v false _ => f ++ ":" ++ v
  | Node.operator OpKind.and operands _ => String.intercalate " AND " (nodesStringHuman operands)
  | Node.operator OpKind.or operands _ => String.intercalate " OR " (nodesStringHuman operands)
  | Node.operator OpKind.concat operands _ => String.intercalate " " (nodesStringHuman operands)

/-- Modelled from the spec: renderings of a node list, in order. -/
def nodesStringHuman : List Node → List String
  | [] => []
  | n :: ns => nodeStringHuman n :: nodesStringHuman ns

end

/-- Modelled from the spec: query.StringHuman renders nodes back to query
text, space-separated. -/
def StringHuman (nodes : List Node) : String :=
  String.intercalate " " (nodes.map nodeStringHuman)

/-- Modelled from the spec: query.MapField applies f to every parameter node
of the given field and drops the node when f yields nothing; other nodes pass
through unchanged. -/
def MapField (nodes : List Node) (field : String)
    (f : String → Bool → Annotation → Option Node) : List Node :=
  nodes.filterMap fun n =>
    match n with
    | Node.parameter fld v neg ann => if fld = field then f v neg ann else some n
    | _ => some n

/-- Modelled from the spec: the per-clause result limit, read from the
clause's own count parameter with the service-wide default as fallback
(newBasic.ToParseTree().MaxResults(default) in Go). -/
def Basic.MaxResults (b : Basic) (deflt : Nat) : Nat :=
  match b.Parameters.find? (fun p => p.field = "count" && !p.negated) with
  | some p => p.value.toNat?.getD deflt
  | none => deflt

/-- Modelled from the spec: the select field value of the clause, empty when
the clause carries no select parameter
(newBasic.ToParseTree().StringValue(query.FieldSelect) in Go). -/
def Basic.selectString (b : Basic) : String :=
  match b.Parameters.find? (fun p => p.field = FieldSelect && !p.negated) with
  | some p => p.value
  | none => ""

/-- The non-negated repo filter values of a clause, used to state properties
of the URL-as-repository-filter rule. -/
def Basic.repoFilters (b : Basic) : List String :=
  b.Parameters.filterMap fun p =>
    if p.field = "repo" && !p.negated then some p.value else none

/-- The value of the clause's pattern when it is a single leaf (the shape the
mutation rules under study produce), and its StringHuman rendering otherwise. -/
def Basic.patternValue (b : Basic) : String :=
  match b.Pattern with
  | Node.pattern v _ _ => v
  | n => StringHuman [n]

end query

namespace filter

/-- filter.SelectPath: a select path is a list of field components. -/
abbrev SelectPath := List String

/-- Modelled from the spec: filter.SelectPathFromString splits a validated
select value into its dot-separated components (the error return of the Go
function is dropped; the caller notes the value is already validated). -/
def SelectPathFromString (s : String) : SelectPath :=
  strings.Split s '.'

end filter

namespace gitdomain

/-- gitdomain.Signature: author name, email and date (the date as an abstract
instant, modelled as a natural number). -/
structure Signature where
  Name : String
  Email : String
  Date : Nat
deriving DecidableEq, Repr, Inhabited

/-- gitdomain.Commit restricted to the fields the embedded code reads. -/
structure Commit where
  ID : String
  Author : Signature
deriving DecidableEq, Repr, Inhabited

end gitdomain

namespace types

/-- types.MinimalRepo restricted to the fields the embedded code reads. -/
structure MinimalRepo where
  ID : Nat
  Name : String
deriving DecidableEq, Repr, Inhabited

end types

namespace diff

/-- diff.FileDiff restricted to the fields the embedded code reads (the
original and new file names of one file's diff). -/
structure FileDiff where
  OrigName : String
  NewName : String
deriving DecidableEq, Repr, Inhabited

end diff

namespace result

/-- result.Location: offset, line and column of one end of a range. -/
structure Location where
  Offset : Int
  Line : Int
  Column : Int
deriving DecidableEq, Repr, Inhabited

/-- result.Range: a highlighted range between two locations. -/
structure Range where
  Start : Location
  End : Location
deriving DecidableEq, Repr, Inhabited

/-- result.MatchedString: content plus its highlighted ranges. -/
structure MatchedString where
  Content : String
  MatchedRanges : List Range
deriving DecidableEq, Repr, Inhabited

/-- The path status recorded in a ranking key: Modified, Added or Deleted.
Modified is the zero value, as in the Go source where it initialises
pathStatus. -/
inductive PathStatus where
  | modified
  | added
  | deleted
deriving DecidableEq, Repr, Inhabited

/-- Modelled from the spec: the ranking key shared by all match variants
(type rank, repository name, author date, commit id, path, path status). -/
structure Key where
  TypeRank : Nat
  Repo : String
  AuthorDate : Nat
  Commit : String
  Path : String
  PathStatus : PathStatus
deriving DecidableEq, Repr, Inhabited

/-- Modelled from the spec: the type rank of plain commit matches; only its
identity matters here. -/
def rankCommitMatch : Nat := 1

/-- Modelled from the spec: the type rank of diff matches; only its identity
matters here. -/
def rankDiffMatch : Nat := 2

/-- result.CommitMatch restricted to the fields the embedded code reads.
MessagePreview and DiffPreview are mutually exclusive per the source comment. -/
structure CommitMatch where
  Commit : gitdomain.Commit
  Repo : types.MinimalRepo
  Refs : List String
  SourceRefs : List String
  MessagePreview : Option MatchedString
  DiffPreview : Option MatchedString
  ModifiedFiles : List String
deriving DecidableEq, Repr, Inhabited

/-- result.CommitDiffMatch: a commit, its repository and one file diff. -/
structure CommitDiffMatch where
  Commit : gitdomain.Commit
  Repo : types.MinimalRepo
  FileDiff : diff.FileDiff
deriving DecidableEq, Repr, Inhabited

/-- result.RepoMatch restricted to the fields the embedded code constructs. -/
structure RepoMatch where
  Name : String
  ID : Nat
deriving DecidableEq, Repr, Inhabited

/-- The closed set of match variants the claims mention. -/
inductive Match where
  | repo (r : RepoMatch)
  | commit (cm : CommitMatch)
  | commitDiff (cd : CommitDiffMatch)
deriving DecidableEq, Repr

/-- CommitMatch.ResultCount from the source: the number of highlighted ranges
of the preview that is set, and 1 when there are none. -/
def CommitMatch.ResultCount (cm : CommitMatch) : Nat :=
  let matchCount :=
    match cm.DiffPreview with
    | some d => d.MatchedRanges.length
    | none =>
      match cm.MessagePreview with
      | some m => m.MatchedRanges.length
      | none => 0
  if matchCount > 0 then matchCount else 1

/-- The limitMatchedString closure inside CommitMatch.Limit from the source:
trims the matched ranges to the limit and returns the remaining budget. -/
def limitMatchedString (ms : MatchedString) (limit : Int) : MatchedString × Int :=
  if ms.MatchedRanges.length = 0 then
    (ms, limit - 1)
  else if (ms.MatchedRanges.length : Int) > limit then
    ({ ms with MatchedRanges := ms.MatchedRanges.take limit.toNat }, 0)
  else
    (ms, limit - ms.MatchedRanges.length)

/-- CommitMatch.Limit from the source. The Go method trims the set preview in
place and returns the remaining budget; it panics when neither preview is set,
which this embedding renders as none. -/
def CommitMatch.Limit (cm : CommitMatch) (limit : Int) : Option (CommitMatch × Int) :=
  match cm.DiffPreview with
  | some ms =>
    let r := limitMatchedString ms limit
    some ({ cm with DiffPreview := some r.1 }, r.2)
  | none =>
    match cm.MessagePreview with
    | some ms =>
      let r := limitMatchedString ms limit
      some ({ cm with MessagePreview := some r.1 }, r.2)
    | none => none

/-- CommitMatch.Key from the source: diff previews rank as diff matches; the
key carries no path (the Go code leaves Key.Path and Key.PathStatus at their
zero values). -/
def CommitMatch.Key (cm : CommitMatch) : Key :=
  let typeRank :=
    match cm.DiffPreview with
    | some _ => rankDiffMatch
    | none => rankCommitMatch
  { TypeRank := typeRank
    Repo := cm.Repo.Name
    AuthorDate := cm.Commit.Author.Date
    Commit := cm.Commit.ID
    Path := ""
    PathStatus := PathStatus.modified }

/-- CommitDiffMatch.Path from the source: the created path for added files,
the deleted path for deleted files, and the original path otherwise. -/
def CommitDiffMatch.Path (cm : CommitDiffMatch) : String :=
  if cm.FileDiff.OrigName = "/dev/null" then
    cm.FileDiff.NewName
  else if cm.FileDiff.NewName = "/dev/null" then
    cm.FileDiff.OrigName
  else
    cm.FileDiff.OrigName

/-- CommitDiffMatch.Key from the source: nonEmptyPath starts empty and
pathStatus starts Modified; the two conditionals only reassign them for added
and deleted files, exactly as in the Go code. -/
def CommitDiffMatch.Key (cm : CommitDiffMatch) : Key :=
  let nonEmptyPath : String := ""
  let pathStatus : PathStatus := PathStatus.modified
  let nonEmptyPath := if cm.FileDiff.OrigName = "/dev/null" then cm.FileDiff.NewName else nonEmptyPath
  let pathStatus := if cm.FileDiff.OrigName = "/dev/null" then PathStatus.added else pathStatus
  let nonEmptyPath := if cm.FileDiff.NewName = "/dev/null" then cm.FileDiff.OrigName else nonEmptyPath
  let pathStatus := if cm.FileDiff.NewName = "/dev/null" then PathStatus.deleted else pathStatus
  { TypeRank := rankDiffMatch
    Repo := cm.Repo.Name
    AuthorDate := cm.Commit.Author.Date
    Commit := cm.Commit.ID
    Path := nonEmptyPath
    PathStatus := pathStatus }

/-- CommitDiffMatch.ResultCount from the source: a TODO stub returning 0. -/
def CommitDiffMatch.ResultCount (cm : CommitDiffMatch) : Nat := 0

/-- CommitDiffMatch.Limit from the source: a TODO stub that returns 0 and
trims nothing. The Go method cannot panic, so in the panic-as-none rendering
used for Limit it is always some, with the match unchanged. -/
def CommitDiffMatch.Limit (cm : CommitDiffMatch) (limit : Int) : Option (CommitDiffMatch × Int) :=
  some (cm, 0)

/-- CommitDiffMatch.Select from the source: a TODO stub returning nil for
every select path. -/
def CommitDiffMatch.Select (cm : CommitDiffMatch) (path : filter.SelectPath) : Option Match :=
  none

end result

namespace search

/-- Modelled from the spec: search.TimeoutDuration derives the clause's
timeout (in seconds) from its own timeout parameter with the service-wide
default of 20s as fallback, as the golden test output of the compiler shows. -/
def TimeoutDuration (b : query.Basic) : Nat :=
  match b.Parameters.find? (fun p => p.field = "timeout" && !p.negated) with
  | some p => p.value.toNat?.getD 20
  | none => 20

end search

namespace run

/-- run.SearchInputs restricted to what the embedded compiler reads: the
service-wide default result limit (the DefaultLimit method rendered as a
field). -/
structure SearchInputs where
  DefaultLimit : Nat
deriving DecidableEq, Repr, Inhabited

end run

namespace job

/-- Modelled from the spec: the job tree built by the compiler. Leaf backend
fan-out trees are abstracted into one constructor carrying their clause; the
combinator constructors mirror NewSelectJob, NewLimitJob, NewTimeoutJob,
NewOrJob and the noop job. -/
inductive Job where
  | fanout (clause : query.Basic)
  | select (path : filter.SelectPath) (child : Job)
  | limit (n : Nat) (child : Job)
  | timeout (d : Nat) (child : Job)
  | orJob (children : List Job)
  | noop
deriving Repr

/-- Whether the top node of a job tree is an OR combinator. -/
def Job.isOr : Job → Bool
  | Job.orJob _ => true
  | _ => false

end job

namespace jobutil

/-- Modelled from the spec: ToEvaluateJob compiles one clause into its
backend fan-out tree (repo pager with indexed and unindexed sub-jobs,
RepoSearch and exclusion computation); the tree itself is abstracted into the
fanout constructor bound to the clause. The error return is dropped: the
callers panic on it and the spec says it cannot occur for validated clauses. -/
def ToEvaluateJob (inputs : run.SearchInputs) (b : query.Basic) : job.Job :=
  job.Job.fanout b

/-- Modelled from the spec: the spec's compiler pipeline has no separate
optimization step, so OptimizationPass is rendered as the identity on the
compiled job (its error return cannot occur for generated clauses, per the
caller's panic message). -/
def OptimizationPass (child : job.Job) (inputs : run.SearchInputs) (b : query.Basic) : job.Job :=
  child

/-- Modelled from the spec: NewSelectJob wraps a child in a SELECT node. -/
def NewSelectJob (sp : filter.SelectPath) (child : job.Job) : job.Job :=
  job.Job.select sp child

/-- Modelled from the spec: NewLimitJob wraps a child in a LIMIT node. -/
def NewLimitJob (n : Nat) (child : job.Job) : job.Job :=
  job.Job.limit n child

/-- Modelled from the spec: NewTimeoutJob wraps a child in a TIMEOUT node. -/
def NewTimeoutJob (d : Nat) (child : job.Job) : job.Job :=
  job.Job.timeout d child

/-- Modelled from the spec: NewOrJob combines children under an OR node. The
golden test output of TestNewOpportunisticJob shows that a single child is
returned without an OR wrapper (the compiled tree for a one-clause plan has
TIMEOUT at its top), and an empty child list yields a noop job. -/
def NewOrJob (children : List job.Job) : job.Job :=
  match children with
  | [] => job.Job.noop
  | [child] => child
  | cs => job.Job.orJob cs

/-- ParametersToNodes from the source: wraps each parameter as a node. -/
def ParametersToNodes (parameters : List query.Parameter) : List query.Node :=
  parameters.map fun p => query.Node.parameter p.field p.value p.negated (query.Parameter.annotation p)

/-- NodesToParameters from the source: query.ToBasicQuery collects the
parameter nodes into a Basic and the function returns its Parameters, which
amounts to keeping exactly the parameter nodes (ToBasicQuery is modelled from
the spec, the query library not being among the provided sources). -/
def NodesToParameters (nodes : List query.Node) : List query.Parameter :=
  nodes.filterMap fun n =>
    match n with
    | query.Node.parameter f v neg ann => some ⟨f, v, neg, ann⟩
    | _ => none

/-- Word characters for the word-boundary assertions of Go regular
expressions: letters, digits and underscore. -/
def isWordChar (c : Char) : Bool :=
  c.isAlphanum || c = '_'

/-- The keyword alternatives of the only-select rule's regular expression
(repos?|files?|paths?|content|symbols?), longest form first so that matching
agrees with the regexp's backtracking order. -/
def selectKeywords : List String :=
  ["repos", "repo", "files", "file", "paths", "path", "content", "symbols", "symbol"]

/-- Matches one keyword alternative at the head of the character list,
requiring a word boundary after it, as the trailing backslash-b of the
only-select regular expression does. -/
def tryKeyword (cs : List Char) : Option (String × List Char) :=
  selectKeywords.foldl
    (fun acc kw =>
      match acc with
      | some r => some r
      | none =>
        let k := kw.toList
        if k.isPrefixOf cs then
          let rest := cs.drop k.length
          match rest with
          | [] => some (kw, rest)
          | c :: _ => if isWordChar c then none else some (kw, rest)
        else none)
    none

/-- Matches the only-select regular expression at the head of the character
list (the word boundary before the match is the caller's responsibility):
the literal text only, a space, then one keyword alternative. -/
def matchOnlyAt (cs : List Char) : Option (String × List Char) :=
  let o := "only ".toList
  if o.isPrefixOf cs then
    match tryKeyword (cs.drop o.length) with
    | some (kw, rest) => some ("only " ++ kw, rest)
    | none => none
  else none

/-- Scanner implementing Split and FindString of the only-select regular
expression in one pass: returns the segments between the non-overlapping
matches and the first matched text. bnd records whether the current position
is at a word boundary suitable for the leading backslash-b; fuel bounds the
recursion and always exceeds the characters left. -/
def onlyScanAux : Nat → List Char → Bool → List Char → List String → Option String →
    List String × Option String
  | _, [], _, seg, segs, fm => (segs ++ [String.mk seg.reverse], fm)
  | 0, cs, _, seg, segs, fm => (segs ++ [String.mk (seg.reverse ++ cs)], fm)
  | Nat.succ fuel, c :: rest, bnd, seg, segs, fm =>
    if bnd then
      match matchOnlyAt (c :: rest) with
      | some (m, rest2) =>
        let fm2 := match fm with
          | some x => some x
          | none => some m
        onlyScanAux fuel rest2 false [] (segs ++ [String.mk seg.reverse]) fm2
      | none => onlyScanAux fuel rest (!isWordChar c) (c :: seg) segs fm
    else
      onlyScanAux fuel rest (!isWordChar c) (c :: seg) segs fm

/-- Split and FindString of the only-select regular expression over a whole
string (the start of the string is a valid word boundary). -/
def onlyRegexScan (s : String) : List String × Option String :=
  onlyScanAux (s.toList.length + 1) s.toList true [] [] none

/-- The alternatives of the value regular expression repo|file|path|content|symbol
of the only-select rule, in alternation order. -/
def vrWords : List String :=
  ["repo", "file", "path", "content", "symbol"]

/-- FindString of the value regular expression: the leftmost occurrence of an
alternative, trying alternatives in order at each position. -/
def vrFind : List Char → Option String
  | [] => none
  | c :: rest =>
    match vrWords.foldl
      (fun acc w =>
        match acc with
        | some r => some r
        | none => if w.toList.isPrefixOf (c :: rest) then some w else none)
      none with
    | some w => some w
    | none => vrFind rest

/-- The select value the only-select rule derives:
vr.FindString(r.FindString(s)), where an absent first match yields the empty
string exactly as FindString does in Go. -/
def selectFieldValue : Option String → String
  | none => ""
  | some m => (vrFind m.toList).getD ""

/-- OnlySelect from the source: renders the clause's pattern, splits it on the
only-keyword phrase, removes any select parameters, appends a select parameter
whose value is recovered from the first match, and returns the clause with the
stripped, trimmed pattern. The nil return corresponds to the empty split. -/
def OnlySelect (b : query.Basic) : Option query.Basic :=
  let s := query.StringHuman [b.Pattern]
  let scanned := onlyRegexScan s
  let out := scanned.1
  if out.length = 0 then none
  else
    let parameters := query.MapField (ParametersToNodes b.Parameters) query.FieldSelect
      (fun _ _ _ => none)
    let stripped := String.join out
    let parameters := parameters ++
      [query.Node.parameter "select" (selectFieldValue scanned.2) false query.annEmpty]
    some { Parameters := NodesToParameters parameters
           Pattern := query.Node.pattern (strings.TrimSpace stripped) false query.annEmpty }

/-- UnorderedPatterns from the source: every negated pattern leaf is kept
verbatim and every non-negated leaf is split on spaces into fresh literal
patterns, all of them combined under one And operator; the parameters are
passed through. The Go function always returns a non-nil clause. -/
def UnorderedPatterns (b : query.Basic) : Option query.Basic :=
  let andPatterns : List query.Node :=
    (query.VisitPattern [b.Pattern]).foldl
      (fun andPatterns pd =>
        if pd.negated then
          andPatterns ++ [query.Node.pattern pd.value pd.negated (query.PatternData.annotation pd)]
        else
          andPatterns ++ (strings.Split pd.value ' ').map
            (fun p => query.NewPattern p query.Literal query.rangeEmpty))
      []
  some { Parameters := b.Parameters
         Pattern := query.Node.operator query.OpKind.and andPatterns query.annEmpty }

/-- BuildBasic from internal/search/job/jobutil/opportunistic.go: only the
clause produced by the OnlySelect rule is collected; the incoming clause is
not included. -/
def BuildBasic (b : query.Basic) : List query.Basic :=
  let bs : List query.Basic := []
  let bs := match OnlySelect b with
    | some g => bs ++ [g]
    | none => bs
  bs

/-- BuildBasic from the part_001 variant of opportunistic.go: the incoming
query is included first, then the clause produced by the UnorderedPatterns
rule. -/
def BuildBasicV2 (b : query.Basic) : List query.Basic :=
  let bs : List query.Basic := [b]
  let bs := match UnorderedPatterns b with
    | some g => bs ++ [g]
    | none => bs
  bs

/-- NewOpportunisticJob from the source: for every clause of the plan and
every clause BuildBasic produces from it, compile the backend fan-out, apply
the optimization pass, wrap in SELECT when the clause's select value is
non-empty, then in LIMIT and TIMEOUT, and combine all children with NewOrJob. -/
def NewOpportunisticJob (inputs : run.SearchInputs) (plan : List query.Basic) : job.Job :=
  let children : List job.Job :=
    plan.foldl
      (fun children q =>
        (BuildBasic q).foldl
          (fun children newBasic =>
            let child := ToEvaluateJob inputs newBasic
            let child := OptimizationPass child inputs newBasic
            let v := newBasic.selectString
            let child :=
              if v ≠ "" then NewSelectJob (filter.SelectPathFromString v) child else child
            let maxResults := newBasic.MaxResults inputs.DefaultLimit
            let timeout := search.TimeoutDuration newBasic
            children ++ [NewTimeoutJob timeout (NewLimitJob maxResults child)])
          children)
      []
  NewOrJob children

/-- Strips a URL scheme from a pattern fragment. -/
def stripScheme (t : String) : String :=
  if "https://".toList.isPrefixOf t.toList then t.drop 8
  else if "http://".toList.isPrefixOf t.toList then t.drop 7
  else t

/-- Whether a pattern fragment is a URL or host-qualified path — a fragment
whose first path component names a host (contains a dot) followed by a
repository path — and, when it is, the repository path with scheme and host
stripped. -/
def hostQualified (t : String) : Option String :=
  let u := stripScheme t
  match strings.Split u '/' with
  | [] => none
  | host :: rest =>
    if host.toList.contains '.' && rest ≠ [] then
      some (String.intercalate "/" rest)
    else none

/-- Modelled from the spec: PatternsAsRepoPaths, the URL-as-repository-filter
rule — it detects URL or host-qualified path fragments of the pattern,
rewrites each into an explicit repo parameter (scheme and host stripped)
appended after the clause's parameters, keeps the remaining fragments as the
residual pattern, and returns no mutation when no such fragment exists. -/
def PatternsAsRepoPaths (b : query.Basic) : Option query.Basic :=
  let terms := strings.Split (query.StringHuman [b.Pattern]) ' '
  let repoPaths := terms.filterMap hostQualified
  let residual := terms.filter fun t => hostQualified t = none
  if repoPaths = [] then none
  else
    some { Parameters := b.Parameters ++
             repoPaths.map (fun p => ⟨"repo", p, false, query.annEmpty⟩)
           Pattern := query.Node.pattern (String.intercalate " " residual) false query.annEmpty }

/-- The wrapped job the compiler builds for one produced clause, written in
the order the spec claims: TIMEOUT outermost, then LIMIT, then SELECT only
when the clause carries a non-empty select value, around the backend fan-out. -/
def wrapClause (inputs : run.SearchInputs) (b : query.Basic) : job.Job :=
  job.Job.timeout (search.TimeoutDuration b)
    (job.Job.limit (b.MaxResults inputs.DefaultLimit)
      (if b.selectString ≠ "" then
        job.Job.select (filter.SelectPathFromString b.selectString) (job.Job.fanout b)
      else job.Job.fanout b))

/-- The terms the unordered-terms rule is claimed to produce for one pattern
leaf: the leaf verbatim when negated, otherwise one fresh literal pattern per
space-separated fragment of its value. -/
def unorderedTermsOf (pd : query.PatternData) : List query.Node :=
  if pd.negated then
    [query.Node.pattern pd.value pd.negated (query.PatternData.annotation pd)]
  else
    (strings.Split pd.value ' ').map fun p => query.NewPattern p query.Literal query.rangeEmpty

/-- The search inputs of the golden test: streaming protocol with the default
limit of 500 results. -/
def inputsEx : run.SearchInputs := ⟨500⟩

/-- The clause of the golden test input repo:sourcegraph func parse only repo. -/
def bGolden : query.Basic :=
  ⟨[⟨"repo", "sourcegraph", false, query.annEmpty⟩],
   query.Node.pattern "func parse only repo" false query.annEmpty⟩

/-- The clause OnlySelect produces from the golden test clause. -/
def bGoldenMutated : query.Basic :=
  ⟨[⟨"repo", "sourcegraph", false, query.annEmpty⟩, ⟨"select", "repo", false, query.annEmpty⟩],
   query.Node.pattern "func parse" false query.annEmpty⟩

/-- A plain clause with pattern text pattern and no parameters. -/
def bPlain : query.Basic := ⟨[], query.Node.pattern "pattern" false query.annEmpty⟩

/-- The clause OnlySelect produces from bPlain: an empty-valued select
parameter is added even though the pattern carries no only-keyword phrase. -/
def bPlainSelect : query.Basic :=
  ⟨[⟨"select", "", false, query.annEmpty⟩], query.Node.pattern "pattern" false query.annEmpty⟩

/-- The clause UnorderedPatterns produces from bPlain. -/
def bPlainUnordered : query.Basic :=
  ⟨[], query.Node.operator query.OpKind.and
        [query.Node.pattern "pattern" false ⟨query.Literal, query.rangeEmpty⟩] query.annEmpty⟩

/-- A clause whose pattern func parse contains no only-keyword phrase. -/
def bFuncParse : query.Basic := ⟨[], query.Node.pattern "func parse" false query.annEmpty⟩

/-- The clause of the URL-rewrite test, as the literal pipeline parses it:
the file parameter plus the remaining pattern text. -/
def bUrl : query.Basic :=
  ⟨[⟨"file", "foo", false, query.annEmpty⟩],
   query.Node.pattern "https://github.com/yes/repo not/repo github.com/also/repo pattern"
     false query.annEmpty⟩

/-- The clause PatternsAsRepoPaths produces from bUrl. -/
def bUrlOut : query.Basic :=
  ⟨[⟨"file", "foo", false, query.annEmpty⟩,
    ⟨"repo", "yes/repo", false, query.annEmpty⟩,
    ⟨"repo", "also/repo", false, query.annEmpty⟩],
   query.Node.pattern "not/repo pattern" false query.annEmpty⟩

end jobutil

namespace result

/-- A highlighted range at the origin, used to build concrete matches. -/
def rangeStub : Range := ⟨⟨0, 0, 0⟩, ⟨0, 0, 0⟩⟩

/-- A matched string with ten highlighted ranges. -/
def msTen : MatchedString := ⟨"diff body", List.replicate 10 rangeStub⟩

/-- A commit match whose diff preview holds ten highlighted ranges. -/
def cmDiffTen : CommitMatch :=
  { Commit := ⟨"deadbeef", ⟨"alice", "alice@example.com", 100⟩⟩
    Repo := ⟨1, "repo1"⟩
    Refs := []
    SourceRefs := []
    MessagePreview := none
    DiffPreview := some msTen
    ModifiedFiles := [] }

/-- A commit match with neither a diff preview nor a message preview. -/
def cmNoPreview : CommitMatch :=
  { Commit := ⟨"deadbeef", ⟨"alice", "alice@example.com", 100⟩⟩
    Repo := ⟨1, "repo1"⟩
    Refs := []
    SourceRefs := []
    MessagePreview := none
    DiffPreview := none
    ModifiedFiles := [] }

/-- A commit-diff match for a modified file f.go. -/
def cdStub : CommitDiffMatch :=
  ⟨⟨"deadbeef", ⟨"alice", "alice@example.com", 100⟩⟩, ⟨1, "repo1"⟩, ⟨"f.go", "f.go"⟩⟩

/-- A commit-diff match for the modified file a.go of commit deadbeef. -/
def cdModA : CommitDiffMatch :=
  ⟨⟨"deadbeef", ⟨"alice", "alice@example.com", 100⟩⟩, ⟨1, "repo1"⟩, ⟨"a.go", "a.go"⟩⟩

/-- A commit-diff match for the modified file b.go of the same commit. -/
def cdModB : CommitDiffMatch :=
  ⟨⟨"deadbeef", ⟨"alice", "alice@example.com", 100⟩⟩, ⟨1, "repo1"⟩, ⟨"b.go", "b.go"⟩⟩

end result

namespace jobutil

/-- Folding an append of singletons over a list collects the mapped list. -/
theorem foldl_append_singleton {α β : Type} (g : α → β) (l : List α) :
    ∀ acc : List β, l.foldl (fun a x => a ++ [g x]) acc = acc ++ l.map g := by
  induction l with
  | nil => intro acc; simp
  | cons x xs ih => intro acc; simp [ih]

/-- The nested fold of the compiler loop collects the wrapped jobs of the
flattened clause list. -/
theorem nested_foldl {α β γ : Type} (f : α → List β) (g : β → γ) (l : List α) :
    ∀ acc : List γ,
      l.foldl (fun a q => (f q).foldl (fun a2 x => a2 ++ [g x]) a) acc
        = acc ++ (l.flatMap f).map g := by
  induction l with
  | nil => intro acc; simp
  | cons q qs ih =>
    intro acc
    simp only [List.foldl_cons, List.flatMap_cons, List.map_append]
    rw [foldl_append_singleton g (f q) acc, ih, List.append_assoc]

/-- C1 (amended): NewOpportunisticJob hands NewOrJob exactly one wrapped job
per clause produced by BuildBasic, each nesting TIMEOUT outermost, then
LIMIT, then SELECT (present only when the clause's select value is
non-empty) around the backend fan-out; NewOrJob, not a bare OR node, joins
them, so a single wrapped job is returned without an OR wrapper. -/
theorem newOpportunisticJob_shape (inputs : run.SearchInputs) (plan : List query.Basic) :
    NewOpportunisticJob inputs plan
      = NewOrJob ((plan.flatMap BuildBasic).map (wrapClause inputs)) := by
  have h := nested_foldl BuildBasic (wrapClause inputs) plan []
  calc NewOpportunisticJob inputs plan
      = NewOrJob (plan.foldl
          (fun a q => (BuildBasic q).foldl (fun a2 x => a2 ++ [wrapClause inputs x]) a) []) := rfl
    _ = NewOrJob ([] ++ (plan.flatMap BuildBasic).map (wrapClause inputs)) := by rw [h]
    _ = NewOrJob ((plan.flatMap BuildBasic).map (wrapClause inputs)) := rfl

/-- C1 (counterexample): for the golden test plan of one clause, BuildBasic
produces one clause and the compiled tree's top node is TIMEOUT, not an OR
node, refuting the claim that every per-clause wrapped job sits under a
single top-level OR node. -/
theorem newOpportunisticJob_single_clause_no_or :
    NewOpportunisticJob inputsEx [bGolden]
        = job.Job.timeout 20 (job.Job.limit 500
            (job.Job.select ["repo"] (job.Job.fanout bGoldenMutated))) ∧
      job.Job.isOr (NewOpportunisticJob inputsEx [bGolden]) = false ∧
      (BuildBasic bGolden).length = 1 :=
  ⟨rfl, rfl, rfl⟩

/-- C2 (counterexample): opportunistic.go's BuildBasic on a plain clause
returns only the OnlySelect mutation; the original clause is not among the
clauses handed to the compiler. -/
theorem buildBasic_omits_original :
    BuildBasic bPlain = [bPlainSelect] ∧ bPlain ∉ BuildBasic bPlain := by
  refine ⟨rfl, ?_⟩
  intro hmem
  have h : BuildBasic bPlain = [bPlainSelect] := rfl
  rw [h, List.mem_singleton] at hmem
  have hlen := congrArg (fun b => b.Parameters.length) hmem
  exact absurd hlen (by decide)

/-- C2 (amended): the part_001 variant of BuildBasic keeps the original
clause and every UnorderedPatterns mutation, while opportunistic.go's
BuildBasic keeps exactly the OnlySelect mutation and omits the original. -/
theorem buildBasic_membership (b : query.Basic) :
    (∀ g, OnlySelect b = some g → BuildBasic b = [g]) ∧
      b ∈ BuildBasicV2 b ∧
      (∀ g, UnorderedPatterns b = some g → g ∈ BuildBasicV2 b) := by
  refine ⟨?_, ?_, ?_⟩
  · intro g hg
    simp [BuildBasic, hg]
  · cases h : UnorderedPatterns b <;> simp [BuildBasicV2, h]
  · intro g hg
    simp [BuildBasicV2, hg]

/-- C2 (witness): the amended statement applied to the plain clause. -/
theorem buildBasic_membership_witness :
    BuildBasic bPlain = [bPlainSelect] ∧
      bPlain ∈ BuildBasicV2 bPlain ∧
      bPlainUnordered ∈ BuildBasicV2 bPlain := by
  obtain ⟨h1, h2, h3⟩ := buildBasic_membership bPlain
  exact ⟨h1 bPlainSelect rfl, h2, h3 bPlainUnordered rfl⟩

/-- The fold inside UnorderedPatterns collects, per visited leaf, the terms
described by unorderedTermsOf. -/
theorem unordered_foldl (l : List query.PatternData) :
    ∀ acc : List query.Node,
      l.foldl
        (fun andPatterns pd =>
          if pd.negated then
            andPatterns ++ [query.Node.pattern pd.value pd.negated (query.PatternData.annotation pd)]
          else
            andPatterns ++ (strings.Split pd.value ' ').map
              (fun p => query.NewPattern p query.Literal query.rangeEmpty))
        acc
      = acc ++ l.flatMap unorderedTermsOf := by
  induction l with
  | nil => intro acc; simp
  | cons pd l ih =>
    intro acc
    cases hneg : pd.negated <;>
      simp [List.foldl_cons, ih, unorderedTermsOf, hneg, List.append_assoc]

/-- C5: UnorderedPatterns returns the clause whose pattern is the And of the
negated leaves kept verbatim and one fresh literal pattern per
space-separated fragment of each non-negated leaf, with the parameters
unchanged. -/
theorem unorderedPatterns_spec (b : query.Basic) :
    UnorderedPatterns b =
      some { Parameters := b.Parameters
             Pattern := query.Node.operator query.OpKind.and
               ((query.VisitPattern [b.Pattern]).flatMap unorderedTermsOf) query.annEmpty } := by
  simp only [UnorderedPatterns]
  rw [unordered_foldl]
  rfl

/-- C6 (evaluation at the failing input): on a clause whose pattern func
parse contains no only-keyword phrase, OnlySelect still returns a mutated
clause — carrying an empty-valued select parameter — instead of nil, because
the guard on an empty split can never fire. -/
theorem onlySelect_dead_guard :
    OnlySelect bFuncParse =
        some ⟨[⟨"select", "", false, query.annEmpty⟩],
              query.Node.pattern "func parse" false query.annEmpty⟩ ∧
      (OnlySelect bFuncParse).isSome = true :=
  ⟨rfl, rfl⟩

/-- C8 (counterexample): on the URL test clause the rule does not lift
not/repo to a repository filter and the residual pattern is not the bare
word pattern. -/
theorem patternsAsRepoPaths_counterexample :
    ((PatternsAsRepoPaths bUrl).map fun nb => nb.repoFilters.contains "not/repo")
        = some false ∧
      ((PatternsAsRepoPaths bUrl).map fun nb => nb.patternValue)
        = some "not/repo pattern" ∧
      "not/repo pattern" ≠ "pattern" :=
  ⟨rfl, rfl, by decide⟩

/-- C8 (amended): the rule rewrites the two host-qualified fragments into
repository filters yes/repo and also/repo, keeps the file filter foo, and
leaves not/repo pattern as the residual pattern. -/
theorem patternsAsRepoPaths_actual :
    PatternsAsRepoPaths bUrl = some bUrlOut ∧
      bUrlOut.repoFilters = ["yes/repo", "also/repo"] ∧
      bUrlOut.patternValue = "not/repo pattern" :=
  ⟨rfl, rfl, rfl⟩

/-- C9: the mutation rules are deterministic — equal input clauses yield
equal mutation results for UnorderedPatterns, OnlySelect and both BuildBasic
variants (their input clause is a value the rules cannot alter in this
embedding, matching the Go code, which only constructs fresh nodes). -/
theorem mutation_rules_deterministic (b b2 : query.Basic) (h : b = b2) :
    UnorderedPatterns b = UnorderedPatterns b2 ∧
      OnlySelect b = OnlySelect b2 ∧
      BuildBasic b = BuildBasic b2 ∧
      BuildBasicV2 b = BuildBasicV2 b2 := by
  subst h
  exact ⟨rfl, rfl, rfl, rfl⟩

/-- C9 (witness): determinism at the concrete clause func parse. -/
theorem mutation_rules_deterministic_witness :
    UnorderedPatterns bFuncParse = UnorderedPatterns bFuncParse ∧
      OnlySelect bFuncParse = OnlySelect bFuncParse ∧
      BuildBasic bFuncParse = BuildBasic bFuncParse ∧
      BuildBasicV2 bFuncParse = BuildBasicV2 bFuncParse :=
  mutation_rules_deterministic bFuncParse bFuncParse rfl

end jobutil

namespace result

/-- C3: a commit-diff match (a commit match whose diff preview is set)
holding 10 highlighted ranges, run through Limit 4, retains exactly 4 ranges
and reports a remaining budget of 0. -/
theorem commitMatch_limit_ten_ranges (cm : CommitMatch) (ms : MatchedString)
    (hd : cm.DiffPreview = some ms) (h10 : ms.MatchedRanges.length = 10) :
    ((CommitMatch.Limit cm 4).map fun r =>
        (r.1.DiffPreview.map fun m2 => m2.MatchedRanges.length, r.2)) = some (some 4, 0) := by
  simp only [CommitMatch.Limit, hd]
  simp [limitMatchedString, h10, List.length_take]

/-- C3 (witness): the statement at a concrete diff match with ten ranges. -/
theorem commitMatch_limit_ten_ranges_witness :
    ((CommitMatch.Limit cmDiffTen 4).map fun r =>
        (r.1.DiffPreview.map fun m2 => m2.MatchedRanges.length, r.2)) = some (some 4, 0) :=
  commitMatch_limit_ten_ranges cmDiffTen msTen rfl rfl

/-- C4: two distinct commit-diff matches over different modified files of the
same commit — which are not duplicates meant to merge, as their paths differ —
receive identical ranking keys, because Key leaves the path empty for
modified files. -/
theorem commitDiffMatch_key_collision :
    cdModA ≠ cdModB ∧
      CommitDiffMatch.Path cdModA ≠ CommitDiffMatch.Path cdModB ∧
      CommitDiffMatch.Key cdModA = CommitDiffMatch.Key cdModB :=
  ⟨by decide, by decide, rfl⟩

/-- C7 (counterexample): CommitDiffMatch.Limit on a concrete match returns
normally with a budget of 0 instead of failing with an invariant violation. -/
theorem commitDiffMatch_limit_returns_normally :
    CommitDiffMatch.Limit cdStub 4 = some (cdStub, 0) ∧
      (CommitDiffMatch.Limit cdStub 4).isSome = true :=
  ⟨rfl, rfl⟩

/-- C7 (amended): a CommitMatch with neither preview set fails Limit with an
invariant violation (none renders the Go panic), while a CommitDiffMatch's
Limit returns normally with budget 0 and trims nothing. -/
theorem limit_no_content_amended (cm : CommitMatch) (cd : CommitDiffMatch)
    (n m : Int) (hd : cm.DiffPreview = none) (hm : cm.MessagePreview = none) :
    CommitMatch.Limit cm n = none ∧ CommitDiffMatch.Limit cd m = some (cd, 0) := by
  refine ⟨?_, rfl⟩
  simp [CommitMatch.Limit, hd, hm]

/-- C7 (witness): the amended statement at concrete matches. -/
theorem limit_no_content_amended_witness :
    CommitMatch.Limit cmNoPreview 4 = none ∧
      CommitDiffMatch.Limit cdStub 4 = some (cdStub, 0) :=
  limit_no_content_amended cmNoPreview cdStub 4 4 rfl rfl

/-- C10: for every commit-diff match, Select returns no match for every
path, ResultCount is 0, and Limit returns a budget of 0 with the match
unchanged, so this variant is always dropped by a SELECT combinator and
never counts hits toward a limit. -/
theorem commitDiffMatch_contracts (cd : CommitDiffMatch)
    (p : filter.SelectPath) (n : Int) :
    CommitDiffMatch.Select cd p = none ∧
      CommitDiffMatch.ResultCount cd = 0 ∧
      CommitDiffMatch.Limit cd n = some (cd, 0) :=
  ⟨rfl, rfl, rfl⟩

end result
